import Mathlib

/-!
Verification development for the PMC full-text extraction core of
`main_extraction.py` (module "4. PMC Full Text Scraping Module (v2.1)").

The Python source is shallowly embedded:
* strings are `String`/`List Char`;
* Python `re` patterns used by the classifier are embedded as a small
  regular-expression AST over the alphabet `Option Char` (the token `none`
  is an explicit end-of-string sentinel, so that the `$` anchor of
  `re.match` can be modelled faithfully);
* the fixed substitutions of `clean_text_v2` are embedded as dedicated
  scanners that follow CPython's leftmost match / greedy backtracking
  behaviour on each concrete pattern;
* network fetching (`requests`, Selenium) and HTML parsing
  (`BeautifulSoup`) are external effects: `fetch_html` is embedded as a
  function of an abstract primary-transport outcome, and
  `extract_full_text` is parametrised by the outcomes of the three
  extraction strategies on the fetched page.

Character classes (`\s`, `\w`, `\d`) are modelled by their ASCII parts;
all pattern literals in the source are ASCII, so matching behaviour on
the embedded patterns is unaffected.
-/

/-- Python's `\s` class (ASCII part): space, tab, newline, carriage
return, form feed, vertical tab.  Used by `str.strip`, `str.split` and
the `\s*`/`\s+` pattern pieces. -/
def pws (c : Char) : Bool :=
  c = ' ' || c = '\t' || c = '\n' || c = '\r' || c = '\x0c' || c = '\x0b'

/-- Python's `\w` class (ASCII part): letters, digits, underscore. -/
def isWordChar (c : Char) : Bool :=
  c.isAlpha || c.isDigit || c = '_'

/-- Python's `\d` class (ASCII part). -/
def isDigitChar (c : Char) : Bool := c.isDigit

/-- Drop a trailing run of whitespace (helper for `str.strip`). -/
def dropTrailingWs (l : List Char) : List Char :=
  (l.reverse.dropWhile pws).reverse

/-- Python `str.strip()` on the character list: remove leading and
trailing whitespace. -/
def pyStrip (l : List Char) : List Char :=
  dropTrailingWs (l.dropWhile pws)

/-- Python `str.strip()` on strings. -/
def pyStripS (s : String) : String :=
  String.mk (pyStrip s.data)

/-- Python `str.lower()` (ASCII part). -/
def pyLower (l : List Char) : List Char :=
  l.map Char.toLower

/-- Python `str.upper()` (ASCII part), used to normalise PMC ids. -/
def pyUpperS (s : String) : String :=
  String.mk (s.data.map Char.toUpper)

theorem lengthDropWhileLe (p : Char → Bool) (l : List Char) :
    (l.dropWhile p).length ≤ l.length := by
  induction l with
  | nil => simp [List.dropWhile]
  | cons c cs ih =>
    by_cases h : p c
    · simpa [List.dropWhile, h] using Nat.le_succ_of_le ih
    · simp [List.dropWhile, h]

/-- Fuelled engine of `pySplit` (structural recursion on the fuel, so
that the kernel can evaluate it; `fuel = l.length` always suffices since
every step consumes at least one character). -/
def pySplitF : Nat → List Char → List (List Char)
  | 0, _ => []
  | _ + 1, [] => []
  | fuel + 1, c :: cs =>
    if pws c then pySplitF fuel (cs.dropWhile pws)
    else (c :: cs.takeWhile (fun d => !pws d)) :: pySplitF fuel (cs.dropWhile (fun d => !pws d))

/-- Python `str.split()` with no argument: split on runs of whitespace,
dropping empty pieces. -/
def pySplit (l : List Char) : List (List Char) := pySplitF l.length l

theorem pySplitF_fuel : ∀ (f1 f2 : Nat) (l : List Char),
    l.length ≤ f1 → l.length ≤ f2 → pySplitF f1 l = pySplitF f2 l := by
  intro f1
  induction f1 with
  | zero =>
    intro f2 l h1 h2
    have : l = [] := List.length_eq_zero.mp (Nat.le_zero.mp h1)
    subst this
    cases f2 <;> rfl
  | succ f1 ih =>
    intro f2 l h1 h2
    cases f2 with
    | zero =>
      have : l = [] := List.length_eq_zero.mp (Nat.le_zero.mp h2)
      subst this
      rfl
    | succ f2 =>
      cases l with
      | nil => rfl
      | cons c cs =>
        have hc : cs.length ≤ f1 := Nat.le_of_succ_le_succ (by simpa using h1)
        have hc2 : cs.length ≤ f2 := Nat.le_of_succ_le_succ (by simpa using h2)
        by_cases hw : pws c = true
        · simp only [pySplitF, if_pos hw]
          exact ih f2 _ (le_trans (lengthDropWhileLe pws cs) hc)
            (le_trans (lengthDropWhileLe pws cs) hc2)
        · simp only [pySplitF, if_neg hw]
          rw [ih f2 _ (le_trans (lengthDropWhileLe _ cs) hc)
            (le_trans (lengthDropWhileLe _ cs) hc2)]

/-- The run-based unfolding of `pySplit`. -/
theorem pySplit_eq (c : Char) (cs : List Char) :
    pySplit (c :: cs) =
      if pws c then pySplit (cs.dropWhile pws)
      else (c :: cs.takeWhile (fun d => !pws d)) :: pySplit (cs.dropWhile (fun d => !pws d)) := by
  show pySplitF (cs.length + 1) (c :: cs) = _
  by_cases hw : pws c = true
  · simp only [pySplitF, if_pos hw]
    exact pySplitF_fuel _ _ _ (lengthDropWhileLe pws cs) le_rfl
  · simp only [pySplitF, if_neg hw]
    rw [pySplitF_fuel cs.length (cs.dropWhile (fun d => !pws d)).length _
      (lengthDropWhileLe _ cs) le_rfl]
    rfl

/-- `' '.join` on character-list tokens. -/
def joinSp : List (List Char) → List Char
  | [] => []
  | [t] => t
  | t :: ts => t ++ ' ' :: joinSp ts

/-- Fuelled engine of `collapseWs` (structural recursion on the fuel;
`fuel = l.length` always suffices). -/
def collapseWsF : Nat → List Char → List Char
  | 0, _ => []
  | _ + 1, [] => []
  | fuel + 1, c :: cs =>
    if pws c then ' ' :: collapseWsF fuel (cs.dropWhile pws)
    else c :: collapseWsF fuel cs

/-- `re.sub(r'\s+', ' ', text)`: each maximal run of whitespace is
replaced by a single space. -/
def collapseWs (l : List Char) : List Char := collapseWsF l.length l

theorem collapseWsF_fuel : ∀ (f1 f2 : Nat) (l : List Char),
    l.length ≤ f1 → l.length ≤ f2 → collapseWsF f1 l = collapseWsF f2 l := by
  intro f1
  induction f1 with
  | zero =>
    intro f2 l h1 h2
    have : l = [] := List.length_eq_zero.mp (Nat.le_zero.mp h1)
    subst this
    cases f2 <;> rfl
  | succ f1 ih =>
    intro f2 l h1 h2
    cases f2 with
    | zero =>
      have : l = [] := List.length_eq_zero.mp (Nat.le_zero.mp h2)
      subst this
      rfl
    | succ f2 =>
      cases l with
      | nil => rfl
      | cons c cs =>
        have hc : cs.length ≤ f1 := Nat.le_of_succ_le_succ (by simpa using h1)
        have hc2 : cs.length ≤ f2 := Nat.le_of_succ_le_succ (by simpa using h2)
        by_cases hw : pws c = true
        · simp only [collapseWsF, if_pos hw]
          rw [ih f2 _ (le_trans (lengthDropWhileLe pws cs) hc)
            (le_trans (lengthDropWhileLe pws cs) hc2)]
        · simp only [collapseWsF, if_neg hw]
          rw [ih f2 _ hc hc2]

/-- The run-based unfolding of `collapseWs`. -/
theorem collapseWs_eq (c : Char) (cs : List Char) :
    collapseWs (c :: cs) =
      if pws c then ' ' :: collapseWs (cs.dropWhile pws)
      else c :: collapseWs cs := by
  show collapseWsF (cs.length + 1) (c :: cs) = _
  by_cases hw : pws c = true
  · simp only [collapseWsF, if_pos hw]
    rw [collapseWsF_fuel cs.length (cs.dropWhile pws).length _
      (lengthDropWhileLe pws cs) le_rfl]
    rfl
  · simp only [collapseWsF, if_neg hw]
    rfl

/-- Index (within `cs`) just past the last `'\n'` of the leading
whitespace run of `cs`; `none` when that run has no newline.  This is
where a greedy match of `\s*\n` starting at `cs` ends. -/
def lastNlOfRun (cs : List Char) : Option Nat :=
  let w := cs.takeWhile pws
  match (w.enum.filter (fun p => p.2 = '\n')).getLast? with
  | some p => some (p.1 + 1)
  | none => none

/-- Fuelled engine of `nlsub` (structural recursion on the fuel;
`fuel = l.length` always suffices). -/
def nlsubF : Nat → List Char → List Char
  | 0, _ => []
  | _ + 1, [] => []
  | fuel + 1, c :: cs =>
    if c = '\n' then
      match lastNlOfRun cs with
      | some i => '\n' :: '\n' :: nlsubF fuel (cs.drop i)
      | none => c :: nlsubF fuel cs
    else c :: nlsubF fuel cs

/-- `re.sub(r'\n\s*\n', '\n\n', text)`.  At a `'\n'` the greedy `\s*`
runs through the whitespace that follows and backtracks to the last
`'\n'` inside that run; the match is replaced by two newlines and the
scan resumes after it. -/
def nlsub (l : List Char) : List Char := nlsubF l.length l

/-- Regular-expression AST for the classifier patterns, over the
alphabet `Option Char`: `some c` is an ordinary character of the input
and the single token `none` is an end-of-string sentinel consumed by
`eos`, which models the `$` anchor of the Python patterns. -/
inductive Rx where
  | nul
  | eps
  | chr (c : Char)
  | cls (p : Char → Bool)
  | seq (a b : Rx)
  | alt (a b : Rx)
  | opt (a : Rx)
  | star (a : Rx)
  | eos

/-- Does the regex accept the empty token sequence? -/
def Rx.nullable : Rx → Bool
  | .nul => false
  | .eps => true
  | .chr _ => false
  | .cls _ => false
  | .seq a b => a.nullable && b.nullable
  | .alt a b => a.nullable || b.nullable
  | .opt _ => true
  | .star _ => true
  | .eos => false

/-- Brzozowski derivative with respect to one token. -/
def Rx.deriv : Rx → Option Char → Rx
  | .nul, _ => .nul
  | .eps, _ => .nul
  | .chr c, t =>
    match t with
    | some x => if x = c then .eps else .nul
    | none => .nul
  | .cls p, t =>
    match t with
    | some x => if p x then .eps else .nul
    | none => .nul
  | .seq a b, t =>
    if a.nullable then .alt (.seq (a.deriv t) b) (b.deriv t)
    else .seq (a.deriv t) b
  | .alt a b, t => .alt (a.deriv t) (b.deriv t)
  | .opt a, t => a.deriv t
  | .star a, t => .seq (a.deriv t) (.star a)
  | .eos, t =>
    match t with
    | some _ => .nul
    | none => .eps

/-- Does the regex match the whole token sequence? -/
def matchTokens (r : Rx) (ts : List (Option Char)) : Bool :=
  (ts.foldl Rx.deriv r).nullable

/-- Does the regex match some leading segment of the token sequence? -/
def prefMatch (r : Rx) : List (Option Char) → Bool
  | [] => r.nullable
  | t :: ts => r.nullable || prefMatch (r.deriv t) ts

/-- `re.match(pattern, s)` (truthiness): match anchored at the start of
`s`, with `$` inside the pattern modelled by the `eos` sentinel token
appended at the end of the input.  (Python's `$` also accepts a position
just before a final newline; the classifier only ever matches stripped
strings, which cannot end in a newline, so the sentinel model agrees.) -/
def reMatch (r : Rx) (s : List Char) : Bool :=
  prefMatch r (s.map some ++ [none])

/-- Full anchored match of a sentinel-free pattern against `s`. -/
def fullMatch (r : Rx) (s : List Char) : Bool :=
  matchTokens r (s.map some)

/-- The pattern contains no `eos` (`$`) node. -/
def Rx.eosFree : Rx → Bool
  | .nul => true
  | .eps => true
  | .chr _ => true
  | .cls _ => true
  | .seq a b => a.eosFree && b.eosFree
  | .alt a b => a.eosFree && b.eosFree
  | .opt a => a.eosFree
  | .star a => a.eosFree
  | .eos => false

/-- Literal string as a regex. -/
def rstr (s : String) : Rx :=
  s.data.foldr (fun c acc => Rx.seq (Rx.chr c) acc) Rx.eps

/-- `\s*` as a regex piece. -/
def rws : Rx := Rx.star (Rx.cls pws)

/-- `X?` for a literal suffix letter (e.g. the plural `s?`). -/
def ropt (s : String) : Rx := Rx.opt (rstr s)

/-- The `EXCLUDE_SECTION_PATTERNS` table.  Each entry is the pattern
body (without `^`, which is redundant under `re.match`, and without
`$`) together with a flag recording whether the source pattern ends in
`$`.  The one unanchored entry is `r'^data\s*availability'`.  The
patterns are matched against an already lower-cased title, so the
`re.IGNORECASE` flag is inert and lower-case literals are faithful. -/
def EXCLUDE_SECTION_PATTERNS : List (Rx × Bool) := [
  (Rx.seq (rstr "reference") (ropt "s"), true),
  (rstr "bibliography", true),
  (Rx.seq (rstr "acknowledg") (Rx.seq (ropt "m") (Rx.seq (rstr "ent") (ropt "s"))), true),
  (Rx.seq (rstr "acknowled") (Rx.seq (ropt "g") (Rx.seq (rstr "ment") (ropt "s"))), true),
  (Rx.seq (rstr "author") (Rx.seq rws (Rx.seq (rstr "contribution") (ropt "s"))), true),
  (Rx.seq (rstr "author") (Rx.seq (ropt "s") (Rx.seq rws (Rx.seq (rstr "contribution") (ropt "s")))), true),
  (Rx.seq (rstr "contributor") (ropt "s"), true),
  (Rx.seq (rstr "contributor") (Rx.seq rws (rstr "information")), true),
  (Rx.seq (rstr "conflict") (Rx.seq (ropt "s") (Rx.seq rws (Rx.seq (rstr "of") (Rx.seq rws (Rx.seq (rstr "interest") (ropt "s")))))), true),
  (Rx.seq (rstr "competing") (Rx.seq rws (Rx.seq (rstr "interest") (ropt "s"))), true),
  (Rx.seq (rstr "declaration") (ropt "s"), true),
  (rstr "disclosure", true),
  (rstr "funding", true),
  (Rx.seq (rstr "funding") (Rx.seq rws (Rx.opt (Rx.alt (Rx.seq (rstr "source") (ropt "s")) (rstr "information")))), true),
  (Rx.seq (rstr "financial") (Rx.seq rws (rstr "disclosure")), true),
  (Rx.seq (rstr "supplementary") (Rx.seq rws (Rx.opt (Rx.alt (Rx.seq (rstr "material") (ropt "s")) (Rx.alt (rstr "data") (rstr "information"))))), true),
  (Rx.seq (rstr "supporting") (Rx.seq rws (rstr "information")), true),
  (Rx.seq (rstr "appendi") (Rx.alt (rstr "x") (rstr "ces")), true),
  (Rx.seq (rstr "data") (Rx.seq rws (rstr "availability")), false),
  (Rx.seq (rstr "ethics") (Rx.seq rws (Rx.opt (Rx.alt (rstr "statement") (rstr "approval")))), true),
  (Rx.seq (rstr "ethical") (Rx.seq rws (rstr "approval")), true),
  (Rx.seq (rstr "footnote") (ropt "s"), true),
  (Rx.seq (rstr "abbreviation") (ropt "s"), true),
  (Rx.seq (rstr "associated") (Rx.seq rws (rstr "data")), true)]

/-- The `MAIN_CONTENT_PATTERNS` table (every entry ends in `$`). -/
def MAIN_CONTENT_PATTERNS : List (Rx × Bool) := [
  (rstr "abstract", true),
  (Rx.seq (rstr "highlight") (ropt "s"), true),
  (rstr "background", true),
  (rstr "introduction", true),
  (Rx.seq (rstr "method") (ropt "s"), true),
  (Rx.seq (rstr "material") (Rx.seq (ropt "s") (Rx.seq rws (Rx.seq (Rx.alt (rstr "and") (rstr "&")) (Rx.seq rws (Rx.seq (rstr "method") (ropt "s")))))), true),
  (Rx.seq (rstr "patient") (Rx.seq (ropt "s") (Rx.seq rws (Rx.seq (Rx.alt (rstr "and") (rstr "&")) (Rx.seq rws (Rx.seq (rstr "method") (ropt "s")))))), true),
  (Rx.seq (rstr "study") (Rx.seq rws (rstr "design")), true),
  (Rx.seq (rstr "result") (ropt "s"), true),
  (Rx.seq (rstr "finding") (ropt "s"), true),
  (rstr "discussion", true),
  (Rx.seq (rstr "conclusion") (ropt "s"), true),
  (rstr "summary", true)]

/-- Re-attach the `$` sentinel where the source pattern has one. -/
def withEos (pr : Rx × Bool) : Rx :=
  if pr.2 then Rx.seq pr.1 Rx.eos else pr.1

/-- `title.strip().lower()` as in both classifiers. -/
def cleanTitle (title : String) : List Char :=
  pyLower (pyStrip title.data)

/-- `is_exclude_section` from the source: empty title is not excluded;
otherwise the stripped, lower-cased title is `re.match`ed against each
exclude pattern in order. -/
def is_exclude_section (title : String) : Bool :=
  if title = "" then false
  else EXCLUDE_SECTION_PATTERNS.any (fun pr => reMatch (withEos pr) (cleanTitle title))

/-- `is_main_content_section` from the source. -/
def is_main_content_section (title : String) : Bool :=
  if title = "" then false
  else MAIN_CONTENT_PATTERNS.any (fun pr => reMatch (withEos pr) (cleanTitle title))

/-- Case-insensitive character comparison against a lower-case pattern
character. -/
def ciEq (p c : Char) : Bool := p = c.toLower

/-- Case-insensitive "starts with" against a lower-case literal. -/
def ciStarts : List Char → List Char → Bool
  | [], _ => true
  | _ :: _, [] => false
  | p :: ps, c :: cs => ciEq p c && ciStarts ps cs

/-- One match attempt of `re.sub(r'ORCID\s*(ID)?\s*:\s*\S+', '', ...,
flags=re.IGNORECASE)` at the current position; returns the match length
and the replacement (empty).  Each `\s*` is followed by a non-whitespace
mandatory token, and the optional `(ID)?` is followed by `:`, so the
greedy engine behaves deterministically: whitespace runs are consumed
whole and `(ID)?` is consumed exactly when `ID` is present. -/
def orcidSubTry (_prev : Option Char) (s : List Char) : Option (Nat × List Char) :=
  if ciStarts "orcid".data s then
    let s1 := s.drop 5
    let a := (s1.takeWhile pws).length
    let s2 := s1.dropWhile pws
    let bs3 : Nat × List Char := if ciStarts "id".data s2 then (2, s2.drop 2) else (0, s2)
    let c := (bs3.2.takeWhile pws).length
    match bs3.2.dropWhile pws with
    | ':' :: s5 =>
      let d := (s5.takeWhile pws).length
      let s6 := s5.dropWhile pws
      let e := (s6.takeWhile (fun ch => !pws ch)).length
      if e = 0 then none else some (5 + a + bs3.1 + c + 1 + d + e, [])
    | _ => none
  else none

/-- One match attempt of `re.sub(r'https?://orcid\.org/\S+', '', ...)`
(case-sensitive) at the current position. -/
def orcidUrlSubTry (_prev : Option Char) (s : List Char) : Option (Nat × List Char) :=
  if List.isPrefixOf "http".data s then
    let s1 := s.drop 4
    let bs2 : Nat × List Char :=
      match s1 with
      | 's' :: r => (1, r)
      | _ => (0, s1)
    if List.isPrefixOf "://orcid.org/".data bs2.2 then
      let s3 := bs2.2.drop 13
      let e := (s3.takeWhile (fun ch => !pws ch)).length
      if e = 0 then none else some (4 + bs2.1 + 13 + e, [])
    else none
  else none

/-- `[A-Za-z0-9._%+-]` (the email local-part class). -/
def lcChar (c : Char) : Bool :=
  c.isAlpha || c.isDigit || c = '.' || c = '_' || c = '%' || c = '+' || c = '-'

/-- `[A-Za-z0-9.-]` (the email domain class). -/
def dcChar (c : Char) : Bool :=
  c.isAlpha || c.isDigit || c = '.' || c = '-'

/-- `[A-Z|a-z]` (the email "TLD" class; note it literally contains `|`). -/
def tcChar (c : Char) : Bool :=
  c.isAlpha || c = '|'

/-- Word-ness of a position for `\b` (`none` = string edge). -/
def wordAt (t : Option Char) : Bool :=
  match t with
  | some c => isWordChar c
  | none => false

/-- `\b` between two adjacent positions. -/
def isBoundary (a b : Option Char) : Bool :=
  wordAt a != wordAt b

/-- One match attempt of
`re.sub(r'\b[A-Za-z0-9._%+-]+@[A-Za-z0-9.-]+\.[A-Z|a-z]{2,}\b', '', ...)`
at the current position.  The local part needs no backtracking (`@` is
not in its class); the domain run and the final `{2,}` run are searched
greedily, longest first, exactly as the backtracking engine does. -/
def emailSubTry (prev : Option Char) (s : List Char) : Option (Nat × List Char) :=
  let lp := (s.takeWhile lcChar).length
  if lp = 0 then none
  else if !isBoundary prev s.head? then none
  else
    match s.drop lp with
    | '@' :: s2 =>
      let m := (s2.takeWhile dcChar).length
      (List.range (m + 1)).findSome? (fun j =>
        let d := m - j
        if d = 0 then none
        else
          match s2.drop d with
          | '.' :: s3 =>
            let k := (s3.takeWhile tcChar).length
            (List.range k).findSome? (fun j2 =>
              let t := k - j2
              if t < 2 then none
              else if isBoundary (s3.get? (t - 1)) (s3.get? t) then
                some (lp + 1 + d + 1 + t, ([] : List Char))
              else none)
          | _ => none)
    | _ => none

/-- One match attempt of
`re.sub(r'(Figure|Table)\s*\d+\.?\s*(Open in a new tab)?', r'\1 ', ...,
flags=re.I)` at the current position; the replacement is the text
captured by group 1 followed by one space.  After the digits everything
is optional, so the greedy first path always succeeds and the match
swallows the trailing whitespace run even when the literal tail is
absent. -/
def figTabSubTry (_prev : Option Char) (s : List Char) : Option (Nat × List Char) :=
  let g : Option Nat :=
    if ciStarts "figure".data s then some 6
    else if ciStarts "table".data s then some 5
    else none
  match g with
  | some glen =>
    let gchars := s.take glen
    let s1 := s.drop glen
    let a := (s1.takeWhile pws).length
    let s2 := s1.dropWhile pws
    let d := (s2.takeWhile isDigitChar).length
    if d = 0 then none
    else
      let s3 := s2.drop d
      let dot4 : Nat × List Char :=
        match s3 with
        | '.' :: r => (1, r)
        | _ => (0, s3)
      let b := (dot4.2.takeWhile pws).length
      let s5 := dot4.2.dropWhile pws
      let o := if ciStarts "open in a new tab".data s5 then 17 else 0
      some (glen + a + d + dot4.1 + b + o, gchars ++ [' '])
  | none => none

/-- `re.sub` driver: scan left to right over the original characters,
attempting one pattern match at every position; on a match, emit the
replacement, remember the last consumed character (so `\b` at the next
position looks at the original string) and resume after the match; the
replacement itself is never rescanned. -/
def runSubF (f : Option Char → List Char → Option (Nat × List Char)) :
    Nat → Option Char → List Char → List Char
  | 0, _, _ => []
  | _ + 1, _, [] => []
  | fuel + 1, prev, c :: cs =>
    match f prev (c :: cs) with
    | some (Nat.succ n, rep) =>
      rep ++ runSubF f fuel (((c :: cs).take (n + 1)).getLast?) ((c :: cs).drop (n + 1))
    | _ => c :: runSubF f fuel (some c) cs

def runSub (f : Option Char → List Char → Option (Nat × List Char))
    (prev : Option Char) (l : List Char) : List Char :=
  runSubF f l.length prev l

/-- The four token-removal substitutions of `clean_text_v2`, in source
order (ORCID label, ORCID URL, email, figure/table caption). -/
def tokenSubs (l : List Char) : List Char :=
  runSub figTabSubTry none
    (runSub emailSubTry none
      (runSub orcidUrlSubTry none
        (runSub orcidSubTry none l)))

/-- `clean_text_v2` from the source: empty text maps to itself;
otherwise the four token substitutions run, whitespace runs collapse to
single spaces, the blank-line substitution runs (vacuously, as no
newline survives the collapse) and the ends are stripped. -/
def clean_text_v2 (text : String) : String :=
  if text = "" then ""
  else String.mk (pyStrip (nlsub (collapseWs (tokenSubs text.data))))

/-- The `while` loop of `chunk_text_v2`, fuelled: from word offset
`start`, emit the window `words[start : min (start+size) len]`; stop
after a window that reaches the last word, otherwise advance `start` by
`size - ov`.  `none` means the fuel ran out before the loop exited (the
Python loop would still be running).  Note `size - ov` is truncated
natural subtraction; the claims under verification only concern
`ov < size`, where it agrees with Python's integer step. -/
def chunkLoopF (words : List (List Char)) (size ov : Nat) : Nat → Nat → Option (List (List Char))
  | 0, _ => none
  | fuel + 1, start =>
    if start < words.length then
      let e := min (start + size) words.length
      let chunk := joinSp ((words.drop start).take (e - start))
      if e = words.length then some [chunk]
      else
        match chunkLoopF words size ov fuel (start + (size - ov)) with
        | some cs => some (chunk :: cs)
        | none => none
    else some []

/-- `chunk_text_v2(text, chunk_size_words, overlap_words)`: split on
whitespace; at most `size` words means one chunk that is the original
text; otherwise run the window loop (fuel `len + 1` suffices whenever
`ov < size`, see the termination theorem). -/
def chunk_text_v2 (text : String) (size ov : Nat) : List String :=
  let words := pySplit text.data
  if words.length ≤ size then [text]
  else ((chunkLoopF words size ov (words.length + 1) 0).getD []).map String.mk

/-- Outcome of the primary transport (`requests.get` +
`raise_for_status`) in `fetch_html`, abstracted from the network. -/
inductive PrimaryResult where
  | ok (body : String)
  | timeout
  | httpError (code : Nat)
  | reqError

/-- Outcome of the secondary transport (Selenium rendering), abstracted:
either the rendered page source, or an exception message. -/
inductive SeleniumResult where
  | rendered (html : String)
  | failure (msg : String)

/-- What `fetch_html` returns, plus a ghost flag recording whether the
Selenium block was entered (for "no secondary transport attempted"
statements). -/
structure FetchOut where
  html : Option String
  error : Option String
  seleniumAttempted : Bool
deriving DecidableEq

/-- The Selenium fallback block of `fetch_html` (entered only when
`self.use_selenium` holds): a rendered page longer than 10000 characters
is returned; an exception returns the `Selenium failed` message; an
undersized rendering falls through to the final generic failure. -/
def seleniumStage (useSelenium : Bool) (selenium : SeleniumResult) : FetchOut :=
  if useSelenium then
    match selenium with
    | .rendered h =>
      if 10000 < h.length then ⟨some h, none, true⟩
      else ⟨none, some "Unable to fetch page content", true⟩
    | .failure msg => ⟨none, some ("Selenium failed: " ++ msg), true⟩
  else ⟨none, some "Unable to fetch page content", false⟩

/-- `fetch_html` from the source: the primary body is accepted when
longer than 10000 characters; HTTP 404 returns immediately with the
`Article not found` message; every other primary failure (timeout,
non-404 HTTP error, request exception, undersized body) falls through to
the Selenium stage. -/
def fetch_html (useSelenium : Bool) (primary : PrimaryResult)
    (selenium : SeleniumResult) (pmcid : String) : FetchOut :=
  match primary with
  | .ok body =>
    if 10000 < body.length then ⟨some body, none, false⟩
    else seleniumStage useSelenium selenium
  | .timeout => seleniumStage useSelenium selenium
  | .httpError code =>
    if code = 404 then ⟨none, some ("Article not found (404): " ++ pmcid), false⟩
    else seleniumStage useSelenium selenium
  | .reqError => seleniumStage useSelenium selenium

/-- `' '.join` on strings. -/
def joinSpStr (ls : List String) : String := String.intercalate " " ls

/-- `'\n\n'.join` on strings. -/
def joinNN (ls : List String) : String := String.intercalate "\n\n" ls

/-- The heading loop of `extract_method2_heading`.  The document is
abstracted to its h2/h3 headings in document order, each with the list
of sibling text blocks gathered up to the next h2/h3.  The loop breaks
at the first heading classified as excluded (before the main-content
check, so even when `start_found` is still false), switches
`start_found` on at a main-content heading, and while `start_found`
collects the heading into `sections_found` and, when it has non-empty
content, a `"title\ncontent"` part. -/
def m2go (start_found : Bool) : List (String × List String) → List String × List String
  | [] => ([], [])
  | h :: rest =>
    if is_exclude_section h.1 then ([], [])
    else
      if start_found || is_main_content_section h.1 then
        let r := m2go true rest
        let c := h.2.filter (fun s => s != "")
        ((if c = [] then r.1 else (h.1 ++ "\n" ++ joinSpStr c) :: r.1), h.1 :: r.2)
      else m2go start_found rest

/-- `extract_method2_heading` on the heading abstraction: the collected
parts joined by blank lines (or `None` when nothing was collected),
together with `sections_found`. -/
def extract_method2_heading (hs : List (String × List String)) : Option String × List String :=
  let r := m2go false hs
  (if r.1 = [] then none else some (joinNN r.1), r.2)

/-- Earliest case-insensitive occurrence of `\bmarker\b` in the text
(`re.search` with `re.IGNORECASE`), as an index; `prev` is the character
just before the scan position, for the word boundary.  The markers used
are purely alphabetic, so both `\b` checks compare word-ness across the
match edges. -/
def findWB (marker : List Char) : Option Char → List Char → Option Nat
  | _, [] => none
  | prev, c :: cs =>
    if isBoundary prev (some c) && ciStarts marker (c :: cs) &&
        isBoundary (((c :: cs).take marker.length).getLast?) ((c :: cs).drop marker.length).head? then
      some 0
    else
      match findWB marker (some c) cs with
      | some i => some (i + 1)
      | none => none

/-- The boilerplate markers of `extract_method3_fallback`, in the fixed
priority order the `for` loop tries them (`\bReferences\b`,
`\bBibliography\b`, `\bFootnotes\b`, all `re.IGNORECASE`). -/
def FALLBACK_MARKERS : List (List Char) := ["references".data, "bibliography".data, "footnotes".data]

/-- The truncation loop of `extract_method3_fallback`: try each marker
in order; at the first marker that occurs anywhere, cut the text just
before that occurrence and stop looking at the remaining markers. -/
def truncAtMarkers : List (List Char) → List Char → List Char
  | [], t => t
  | m :: ms, t =>
    match findWB m none t with
    | some i => t.take i
    | none => truncAtMarkers ms t

/-- The text stage of `extract_method3_fallback`, starting from the
flattened article text (after container selection and tag removal,
which are DOM effects outside this embedding): truncate at the first
matching marker, then return the stripped text when the truncated text
is longer than 500 characters, else `None`. -/
def extract_method3_textstage (flattened : String) : Option String × List String :=
  let text := truncAtMarkers FALLBACK_MARKERS flattened.data
  if 500 < text.length then (some (String.mk (pyStrip text)), ["[Fallback mode]"])
  else (none, ["[Fallback mode]"])

/-- Extraction status enumeration from the source. -/
inductive ExtractionStatus where
  | SUCCESS
  | PARTIAL
  | FAILED
  | NO_PMCID
deriving DecidableEq

/-- `ExtractionResult` dataclass from the source. -/
structure ExtractionResult where
  pmcid : String
  status : ExtractionStatus
  full_text : Option String
  full_text_chunks : Option (List String)
  error_message : Option String
  method_used : Option String
  sections_found : Option (List String)
  char_count : Nat
  word_count : Nat
deriving DecidableEq

/-- What the three extraction strategies return on a given parsed page:
`(candidate text or None, sections found)` each.  The strategies walk
the BeautifulSoup tree, which is outside the embedding, so
`extract_full_text` is verified for every possible triple of strategy
outcomes. -/
structure SoupModel where
  m1 : Option String × List String
  m2 : Option String × List String
  m3 : Option String × List String

/-- Build the success/partial result for a gated candidate `text`:
normalize, chunk the normalized text, and derive the counts from the
normalized text. -/
def gateBuild (p : String) (st : ExtractionStatus) (mname : String)
    (text : String) (secs : List String) : ExtractionResult :=
  let c := clean_text_v2 text
  ⟨p, st, some c, some (chunk_text_v2 c 4000 1000), none, some mname, some secs,
    c.length, (pySplit c.data).length⟩

/-- One `if text and len(text) > gate: return ...` step of
`extract_full_text`. -/
def tryMethod (p : String) (st : ExtractionStatus) (mname : String) (gate : Nat)
    (r : Option String × List String) (next : ExtractionResult) : ExtractionResult :=
  match r.1 with
  | some t => if gate < t.length then gateBuild p st mname t r.2 else next
  | none => next

/-- The identifier normalisation of `extract_full_text` (for a
non-empty id): strip, prepend `PMC` when the upper-cased stripped id
does not start with `PMC`, then upper-case. -/
def normPmcid (pmcid : String) : String :=
  let p0 := pyStripS pmcid
  pyUpperS (if List.isPrefixOf "PMC".data (pyUpperS p0).data then p0 else "PMC" ++ p0)

/-- The fetch-and-chain body of `extract_full_text`, applied to the
already-normalised id: a fetch without markup yields `FAILED` with the
fetch error (or the generic message); otherwise the three strategies
gate at 1000/1000/500 characters of raw candidate text, the first two
as `SUCCESS`, the third as `PARTIAL`, and exhaustion yields the
structure-non-standard `FAILED`. -/
def extractBody (fetch : String → FetchOut) (methods : String → SoupModel)
    (p : String) : ExtractionResult :=
  let f := fetch p
  match f.html with
  | none =>
    ⟨p, .FAILED, none, none,
      some (match f.error with | some e => e | none => "Unable to fetch HTML"),
      none, none, 0, 0⟩
  | some html =>
    let s := methods html
    tryMethod p .SUCCESS "method1_main_body" 1000 s.m1
      (tryMethod p .SUCCESS "method2_heading" 1000 s.m2
        (tryMethod p .PARTIAL "method3_fallback" 500 s.m3
          ⟨p, .FAILED, none, none,
            some "All extraction methods failed, page structure may be non-standard",
            none, none, 0, 0⟩))

/-- `extract_full_text` from the source, parametrised by the fetcher
and by the strategy outcomes on the fetched markup: empty id short
circuits to `NO_PMCID`; otherwise the id is normalised and the
fetch-and-chain body runs. -/
def extract_full_text (fetch : String → FetchOut) (methods : String → SoupModel)
    (pmcid : String) : ExtractionResult :=
  if pmcid = "" then
    ⟨"", .NO_PMCID, none, none, some "PMCID is empty", none, none, 0, 0⟩
  else extractBody fetch methods (normPmcid pmcid)

theorem prefMatch_nul (ts : List (Option Char)) : prefMatch .nul ts = false := by
  induction ts with
  | nil => rfl
  | cons t ts ih => simpa [prefMatch, Rx.deriv, Rx.nullable] using ih

theorem prefMatch_alt (ts : List (Option Char)) :
    ∀ a b, prefMatch (.alt a b) ts = (prefMatch a ts || prefMatch b ts) := by
  induction ts with
  | nil => intro a b; simp [prefMatch, Rx.nullable]
  | cons t ts ih =>
    intro a b
    simp only [prefMatch, Rx.nullable, Rx.deriv, ih]
    cases a.nullable <;> cases b.nullable <;>
      cases prefMatch (a.deriv t) ts <;> cases prefMatch (b.deriv t) ts <;> rfl

/-- Key anchor lemma: under the sentinel encoding of the input, a
pattern ending in `$` matches a leading segment exactly when the body
matches the whole string. -/
theorem prefMatch_seq_eos (s : List Char) :
    ∀ r : Rx, prefMatch (.seq r .eos) (s.map some ++ [none]) = fullMatch r s := by
  induction s with
  | nil =>
    intro r
    by_cases h : r.nullable = true
    · simp [prefMatch, fullMatch, matchTokens, Rx.nullable, Rx.deriv, h]
    · simp [prefMatch, fullMatch, matchTokens, Rx.nullable, Rx.deriv, h]
  | cons c cs ih =>
    intro r
    by_cases h : r.nullable = true
    · have hd : Rx.deriv (Rx.seq r Rx.eos) (some c)
          = Rx.alt (Rx.seq (r.deriv (some c)) Rx.eos) Rx.nul := by
        simp [Rx.deriv, h]
      calc prefMatch (Rx.seq r Rx.eos) ((c :: cs).map some ++ [none])
          = ((Rx.seq r Rx.eos).nullable ||
              prefMatch (Rx.deriv (Rx.seq r Rx.eos) (some c)) (cs.map some ++ [none])) := by
              simp only [List.map_cons, List.cons_append, prefMatch, List.append_eq]
        _ = prefMatch (Rx.alt (Rx.seq (r.deriv (some c)) Rx.eos) Rx.nul)
              (cs.map some ++ [none]) := by
              simp [Rx.nullable, hd]
        _ = (prefMatch (Rx.seq (r.deriv (some c)) Rx.eos) (cs.map some ++ [none]) ||
              prefMatch Rx.nul (cs.map some ++ [none])) := prefMatch_alt _ _ _
        _ = fullMatch (r.deriv (some c)) cs := by
              rw [prefMatch_nul, Bool.or_false, ih]
        _ = fullMatch r (c :: cs) := rfl
    · have hd : Rx.deriv (Rx.seq r Rx.eos) (some c) = Rx.seq (r.deriv (some c)) Rx.eos := by
        simp [Rx.deriv, h]
      calc prefMatch (Rx.seq r Rx.eos) ((c :: cs).map some ++ [none])
          = ((Rx.seq r Rx.eos).nullable ||
              prefMatch (Rx.deriv (Rx.seq r Rx.eos) (some c)) (cs.map some ++ [none])) := by
              simp only [List.map_cons, List.cons_append, prefMatch, List.append_eq]
        _ = fullMatch r (c :: cs) := by
              rw [hd, ih]
              simp only [Rx.nullable, Bool.and_false, Bool.false_or]
              rfl

theorem nullable_deriv_none (r : Rx) (h : r.eosFree = true) :
    (r.deriv none).nullable = false := by
  induction r with
  | nul => rfl
  | eps => rfl
  | chr c => rfl
  | cls p => rfl
  | seq a b iha ihb =>
    simp only [Rx.eosFree, Bool.and_eq_true] at h
    by_cases hn : a.nullable = true <;>
      simp [Rx.deriv, hn, Rx.nullable, iha h.1, ihb h.2]
  | alt a b iha ihb =>
    simp only [Rx.eosFree, Bool.and_eq_true] at h
    simp [Rx.deriv, Rx.nullable, iha h.1, ihb h.2]
  | opt a iha => simpa [Rx.deriv] using iha (by simpa [Rx.eosFree] using h)
  | star a iha =>
    simp [Rx.deriv, Rx.nullable, iha (by simpa [Rx.eosFree] using h)]
  | eos => simp [Rx.eosFree] at h

theorem eosFree_deriv (t : Option Char) (r : Rx) (h : r.eosFree = true) :
    (r.deriv t).eosFree = true := by
  induction r with
  | nul => rfl
  | eps => rfl
  | chr c => cases t with
    | none => rfl
    | some x => by_cases hx : x = c <;> simp [Rx.deriv, hx, Rx.eosFree]
  | cls p => cases t with
    | none => rfl
    | some x => by_cases hx : p x = true <;> simp [Rx.deriv, hx, Rx.eosFree]
  | seq a b iha ihb =>
    simp only [Rx.eosFree, Bool.and_eq_true] at h
    by_cases hn : a.nullable = true <;>
      simp [Rx.deriv, hn, Rx.eosFree, iha h.1, ihb h.2, h.1, h.2]
  | alt a b iha ihb =>
    simp only [Rx.eosFree, Bool.and_eq_true] at h
    simp [Rx.deriv, Rx.eosFree, iha h.1, ihb h.2]
  | opt a iha => simpa [Rx.deriv] using iha (by simpa [Rx.eosFree] using h)
  | star a iha =>
    have ha : a.eosFree = true := by simpa [Rx.eosFree] using h
    simp [Rx.deriv, Rx.eosFree, iha ha, ha]
  | eos => simp [Rx.eosFree] at h

/-- For a `$`-free pattern, the end-of-string sentinel is invisible. -/
theorem prefMatch_sentinel (s : List Char) :
    ∀ r : Rx, r.eosFree = true →
      prefMatch r (s.map some ++ [none]) = prefMatch r (s.map some) := by
  induction s with
  | nil =>
    intro r h
    simp [prefMatch, nullable_deriv_none r h]
  | cons c cs ih =>
    intro r h
    simp only [List.map_cons, List.cons_append, prefMatch, List.append_eq]
    rw [ih _ (eosFree_deriv (some c) r h)]

theorem anyCongr {α : Type} (l : List α) (p q : α → Bool)
    (h : ∀ a ∈ l, p a = q a) : l.any p = l.any q := by
  induction l with
  | nil => rfl
  | cons a as ih =>
    simp only [List.any_cons, h a (List.mem_cons_self a as),
      ih (fun b hb => h b (List.mem_cons_of_mem a hb))]

/-- C3 (corrected).  `is_exclude_section(title)` holds iff the trimmed,
lower-cased title *fully* matches one of the `$`-terminated exclude
patterns, **or** merely *starts* with a match of the one pattern that
has no terminal anchor (`r'^data\s*availability'`).  Consequently
"References and Notes" is not excluded, but "Data Availability
Statement" is. -/
theorem is_exclude_section_characterisation :
    (∀ title : String, is_exclude_section title =
      EXCLUDE_SECTION_PATTERNS.any (fun pr =>
        if pr.2 then fullMatch pr.1 (cleanTitle title)
        else prefMatch pr.1 ((cleanTitle title).map some)))
    ∧ is_exclude_section "References and Notes" = false
    ∧ is_exclude_section "Data Availability Statement" = true := by
  refine ⟨?_, by decide, by decide⟩
  intro title
  by_cases h : title = ""
  · subst h
    decide
  · rw [is_exclude_section, if_neg h]
    refine anyCongr _ _ _ ?_
    intro pr hpr
    have hfree : pr.1.eosFree = true := by
      have hall : EXCLUDE_SECTION_PATTERNS.all (fun q => q.1.eosFree) = true := by decide
      exact (List.all_eq_true.mp hall) pr hpr
    cases hb : pr.2 with
    | true =>
      simp only [withEos, hb, if_pos, reMatch, if_true]
      exact prefMatch_seq_eos (cleanTitle title) pr.1
    | false =>
      simp only [withEos, hb, reMatch, if_false, Bool.false_eq_true]
      exact prefMatch_sentinel (cleanTitle title) pr.1 hfree

/-- C3 counterexample to the claim as stated: the title
"Data Availability Statement" is classified as excluded by the source,
yet its trimmed lower-cased form does not fully match (anchored at both
ends) any pattern of the exclude table. -/
theorem is_exclude_section_not_fully_anchored :
    is_exclude_section "Data Availability Statement" = true ∧
    EXCLUDE_SECTION_PATTERNS.any
      (fun pr => fullMatch pr.1 (cleanTitle "Data Availability Statement")) = false := by
  constructor
  · decide
  · decide

/-- The parts/sections a run of the method-2 loop produces from a list
of headings it actually collects: a `"title\ncontent"` part for every
heading with non-empty content, and every title as a section. -/
def m2assemble (l : List (String × List String)) : List String × List String :=
  (l.filterMap (fun h =>
      let c := h.2.filter (fun s => s != "")
      if c = [] then none else some (h.1 ++ "\n" ++ joinSpStr c)),
   l.map (fun h => h.1))

theorem m2go_true (hs : List (String × List String)) :
    m2go true hs = m2assemble (hs.takeWhile (fun h => !is_exclude_section h.1)) := by
  induction hs with
  | nil => rfl
  | cons h rest ih =>
    cases hx : is_exclude_section h.1 with
    | true => simp [m2go, hx, List.takeWhile_cons, m2assemble]
    | false =>
      simp only [m2go, hx, Bool.false_eq_true, if_false, Bool.true_or, if_true, ih,
        List.takeWhile_cons, Bool.not_false, m2assemble, List.filterMap_cons, List.map_cons]
      by_cases hc : h.2.filter (fun s => s != "") = []
      · simp [hc]
      · simp [hc]

theorem m2go_false (hs : List (String × List String)) :
    m2go false hs = m2assemble ((hs.takeWhile (fun h => !is_exclude_section h.1)).dropWhile
      (fun h => !is_main_content_section h.1)) := by
  induction hs with
  | nil => rfl
  | cons h rest ih =>
    cases hx : is_exclude_section h.1 with
    | true => simp [m2go, hx, List.takeWhile_cons, m2assemble]
    | false =>
      cases hm : is_main_content_section h.1 with
      | true =>
        simp only [m2go, hx, Bool.false_eq_true, if_false, Bool.false_or, hm, if_true,
          m2go_true, List.takeWhile_cons, Bool.not_false, List.dropWhile_cons, Bool.not_true,
          Bool.false_eq_true, m2assemble, List.filterMap_cons, List.map_cons]
        by_cases hc : h.2.filter (fun s => s != "") = []
        · simp [hc]
        · simp [hc]
      | false =>
        simp only [m2go, hx, Bool.false_eq_true, if_false, Bool.false_or, hm, ih,
          List.takeWhile_cons, Bool.not_false, List.dropWhile_cons, Bool.not_false, if_true]

/-- What strategy 2 does according to the source: process only the
prefix of headings before the first *excluded* one (wherever it is),
and inside that prefix start collecting at the first main-content
heading. -/
def method2_amended (hs : List (String × List String)) : Option String × List String :=
  let r := m2assemble ((hs.takeWhile (fun h => !is_exclude_section h.1)).dropWhile
    (fun h => !is_main_content_section h.1))
  (if r.1 = [] then none else some (joinNN r.1), r.2)

/-- What the claim says strategy 2 does: skip headings (excluded or
not) until the first main-content heading, then collect until the first
excluded heading. -/
def method2_claimed (hs : List (String × List String)) : Option String × List String :=
  let r := m2assemble ((hs.dropWhile (fun h => !is_main_content_section h.1)).takeWhile
    (fun h => !is_exclude_section h.1))
  (if r.1 = [] then none else some (joinNN r.1), r.2)

/-- C5 (corrected): the heading loop of strategy 2 breaks at the first
heading classified as excluded even when collection has not begun, so
the collected headings are the main-content-started suffix of the
prefix before the *first* excluded heading. -/
theorem extract_method2_stops_at_any_excluded :
    ∀ hs, extract_method2_heading hs = method2_amended hs := by
  intro hs
  unfold extract_method2_heading method2_amended
  rw [m2go_false]

/-- C5 counterexample to the claim as stated: an excluded heading
("Footnotes") appearing before any main-content heading prevents all
later collection — the code returns no content for
`[Footnotes, Introduction]`, while the claimed reading would collect
the Introduction section. -/
theorem extract_method2_early_excluded_blocks :
    extract_method2_heading [("Footnotes", ["f"]), ("Introduction", ["body text"])] ≠
      method2_claimed [("Footnotes", ["f"]), ("Introduction", ["body text"])] := by
  decide

theorem truncAtMarkers_append (ms : List (List Char)) (t : List Char) :
    ∃ u, truncAtMarkers ms t ++ u = t := by
  induction ms with
  | nil => exact ⟨[], List.append_nil t⟩
  | cons m ms ih =>
    cases h : findWB m none t with
    | some i =>
      refine ⟨t.drop i, ?_⟩
      simp [truncAtMarkers, h, List.take_append_drop]
    | none =>
      rcases ih with ⟨u, hu⟩
      exact ⟨u, by simp [truncAtMarkers, h, hu]⟩

/-- What the claim says strategy 3's truncation does: cut at the
earliest occurrence among all three marker words. -/
def method3_claimed_trunc (t : List Char) : List Char :=
  match ([findWB "references".data none t, findWB "bibliography".data none t,
          findWB "footnotes".data none t].filterMap id).min? with
  | some i => t.take i
  | none => t

/-- The claim's version of the strategy-3 text stage. -/
def method3_claimed_textstage (flattened : String) : Option String × List String :=
  let text := method3_claimed_trunc flattened.data
  if 500 < text.length then (some (String.mk (pyStrip text)), ["[Fallback mode]"])
  else (none, ["[Fallback mode]"])

/-- C4 (corrected): strategy 3's truncation always yields a prefix of
the flattened text, cut at the first occurrence of the
*highest-priority* marker that occurs anywhere — `References` first,
then `Bibliography`, then `Footnotes`, the whole text when none occurs
— not at the earliest occurrence among all three. -/
theorem extract_method3_priority_truncation :
    ∀ t : String,
      (∃ u, truncAtMarkers FALLBACK_MARKERS t.data ++ u = t.data) ∧
      truncAtMarkers FALLBACK_MARKERS t.data =
        (match findWB "references".data none t.data with
         | some i => t.data.take i
         | none =>
           match findWB "bibliography".data none t.data with
           | some i => t.data.take i
           | none =>
             match findWB "footnotes".data none t.data with
             | some i => t.data.take i
             | none => t.data) := by
  intro t
  exact ⟨truncAtMarkers_append _ _, rfl⟩

/-- A flattened text in which `Bibliography` occurs strictly before
`References`. -/
def fallbackCounterInput : String :=
  String.mk (List.replicate 501 'a' ++ " Bibliography b References c".data)

set_option maxRecDepth 100000 in
/-- C4 counterexample to the claim as stated: on a text where
`Bibliography` occurs before `References`, the code truncates at the
later `References` occurrence (the first *pattern* that matches
anywhere), not at the earliest occurrence among the three markers, and
the returned candidates differ. -/
theorem extract_method3_not_earliest_marker :
    extract_method3_textstage fallbackCounterInput ≠
      method3_claimed_textstage fallbackCounterInput := by
  decide

theorem dropWhile_eq_self_of_none {p : Char → Bool} {u : List Char}
    (h : ∀ c ∈ u, p c = false) : u.dropWhile p = u := by
  cases u with
  | nil => rfl
  | cons c cs =>
    exact List.dropWhile_cons_of_neg (by simp [h c (List.mem_cons_self c cs)])

theorem takeWhile_append_of_all {p : Char → Bool} (r : List Char) (X : List Char)
    (h : ∀ c ∈ r, p c = true) : (r ++ X).takeWhile p = r ++ X.takeWhile p := by
  induction r with
  | nil => rfl
  | cons c cs ih =>
    rw [List.cons_append, List.takeWhile_cons_of_pos (h c (List.mem_cons_self c cs)),
      ih (fun d hd => h d (List.mem_cons_of_mem c hd)), List.cons_append]

theorem dropWhile_append_of_all {p : Char → Bool} (r : List Char) (X : List Char)
    (h : ∀ c ∈ r, p c = true) : (r ++ X).dropWhile p = X.dropWhile p := by
  induction r with
  | nil => rfl
  | cons c cs ih =>
    rw [List.cons_append, List.dropWhile_cons_of_pos (h c (List.mem_cons_self c cs)),
      ih (fun d hd => h d (List.mem_cons_of_mem c hd))]

theorem dropWhile_append_split {p : Char → Bool} (u v : List Char) :
    (u ++ v).dropWhile p =
      if u.dropWhile p = [] then v.dropWhile p else u.dropWhile p ++ v := by
  induction u with
  | nil => simp
  | cons c cs ih =>
    by_cases hc : p c = true
    · rw [List.cons_append, List.dropWhile_cons_of_pos hc, ih,
        List.dropWhile_cons_of_pos hc]
    · rw [List.cons_append, List.dropWhile_cons_of_neg hc, List.dropWhile_cons_of_neg hc]
      simp

theorem dropTrailingWs_append (A Z : List Char) :
    dropTrailingWs (A ++ Z) =
      if dropTrailingWs Z = [] then dropTrailingWs A else A ++ dropTrailingWs Z := by
  unfold dropTrailingWs
  rw [List.reverse_append, dropWhile_append_split]
  by_cases h : Z.reverse.dropWhile pws = []
  · simp [h]
  · have h2 : ¬ (Z.reverse.dropWhile pws).reverse = [] := by
      simpa [List.reverse_eq_nil_iff] using h
    simp [h, h2, List.reverse_append]

theorem dropTrailingWs_of_none {u : List Char} (h : ∀ c ∈ u, pws c = false) :
    dropTrailingWs u = u := by
  unfold dropTrailingWs
  rw [dropWhile_eq_self_of_none (by intro c hc; exact h c (List.mem_reverse.mp hc)),
    List.reverse_reverse]

theorem collapseWs_append_of_nonws (r X : List Char) (h : ∀ c ∈ r, pws c = false) :
    collapseWs (r ++ X) = r ++ collapseWs X := by
  induction r with
  | nil => rfl
  | cons c cs ih =>
    rw [List.cons_append,
      show collapseWs (c :: (cs ++ X)) = c :: collapseWs (cs ++ X) from by
        rw [collapseWs_eq]; simp [h c (List.mem_cons_self c cs)],
      ih (fun d hd => h d (List.mem_cons_of_mem c hd)), List.cons_append]

theorem mem_collapseWsF : ∀ (fuel : Nat) (l : List Char),
    ∀ c ∈ collapseWsF fuel l, c = ' ' ∨ pws c = false := by
  intro fuel
  induction fuel with
  | zero => intro l c hc; simp [collapseWsF] at hc
  | succ fuel ih =>
    intro l c hc
    cases l with
    | nil => simp [collapseWsF] at hc
    | cons d ds =>
      by_cases hw : pws d = true
      · rw [show collapseWsF (fuel + 1) (d :: ds)
            = ' ' :: collapseWsF fuel (ds.dropWhile pws) from by
          simp only [collapseWsF, if_pos hw]] at hc
        rcases List.mem_cons.mp hc with h | h
        · exact Or.inl h
        · exact ih _ c h
      · rw [show collapseWsF (fuel + 1) (d :: ds) = d :: collapseWsF fuel ds from by
          simp only [collapseWsF, if_neg hw]] at hc
        rcases List.mem_cons.mp hc with h | h
        · subst h; exact Or.inr (by simpa using hw)
        · exact ih _ c h

theorem mem_collapseWs (l : List Char) : ∀ c ∈ collapseWs l, c = ' ' ∨ pws c = false :=
  mem_collapseWsF l.length l

theorem nlsub_eq_self {l : List Char} (h : ∀ c ∈ l, c ≠ '\n') : nlsub l = l := by
  induction l with
  | nil => rfl
  | cons c cs ih =>
    have hc : ¬ c = '\n' := h c (List.mem_cons_self c cs)
    rw [show nlsub (c :: cs) = c :: nlsub cs from by
        show nlsubF (cs.length + 1) (c :: cs) = c :: nlsub cs
        simp only [nlsubF, if_neg hc]
        rfl,
      ih (fun d hd => h d (List.mem_cons_of_mem c hd))]

theorem nlsub_collapseWs (l : List Char) : nlsub (collapseWs l) = collapseWs l := by
  refine nlsub_eq_self ?_
  intro c hc
  rcases mem_collapseWs l c hc with h | h
  · subst h; decide
  · intro he; subst he; simp [pws] at h

theorem head_dropWhile_false {p : Char → Bool} :
    ∀ {l : List Char} {d : Char} {dl : List Char}, l.dropWhile p = d :: dl → p d = false := by
  intro l
  induction l with
  | nil => intro d dl h; simp at h
  | cons c cs ih =>
    intro d dl h
    by_cases hc : p c = true
    · rw [List.dropWhile_cons_of_pos hc] at h
      exact ih h
    · rw [List.dropWhile_cons_of_neg hc] at h
      injection h with h1 h2
      subst h1
      simpa using hc

theorem pySplitF_wf : ∀ (fuel : Nat) (l : List Char),
    ∀ t ∈ pySplitF fuel l, t ≠ [] ∧ ∀ c ∈ t, pws c = false := by
  intro fuel
  induction fuel with
  | zero => intro l t ht; simp [pySplitF] at ht
  | succ fuel ih =>
    intro l t ht
    cases l with
    | nil => simp [pySplitF] at ht
    | cons c cs =>
      by_cases hc : pws c = true
      · rw [show pySplitF (fuel + 1) (c :: cs) = pySplitF fuel (cs.dropWhile pws) from by
          simp only [pySplitF, if_pos hc]] at ht
        exact ih _ t ht
      · rw [show pySplitF (fuel + 1) (c :: cs)
            = (c :: cs.takeWhile (fun d => !pws d)) ::
              pySplitF fuel (cs.dropWhile (fun d => !pws d)) from by
          simp only [pySplitF, if_neg hc]] at ht
        rcases List.mem_cons.mp ht with h | h
        · subst h
          refine ⟨by simp, ?_⟩
          intro d hd
          rcases List.mem_cons.mp hd with h2 | h2
          · subst h2
            simpa using hc
          · have := List.mem_takeWhile_imp h2
            simpa using this
        · exact ih _ t h

theorem pySplit_wf (l : List Char) :
    ∀ t ∈ pySplit l, t ≠ [] ∧ ∀ c ∈ t, pws c = false :=
  pySplitF_wf l.length l

theorem joinSp_cons₂ (t u : List Char) (r : List (List Char)) :
    joinSp (t :: u :: r) = t ++ ' ' :: joinSp (u :: r) := rfl

theorem joinSp_ne_nil (t : List Char) (ts : List (List Char)) (h : t ≠ []) :
    joinSp (t :: ts) ≠ [] := by
  cases ts with
  | nil => simpa [joinSp] using h
  | cons u r =>
    rw [joinSp_cons₂]
    intro he
    rcases List.append_eq_nil.mp he with ⟨h1, h2⟩
    exact absurd h2 (by simp)

theorem pySplit_token_append (t X : List Char) (ht : t ≠ [])
    (hall : ∀ c ∈ t, pws c = false)
    (hX : ∀ d, X.head? = some d → pws d = true) :
    pySplit (t ++ X) = t :: pySplit X := by
  cases t with
  | nil => exact absurd rfl ht
  | cons c r =>
    have hc : pws c = false := hall c (List.mem_cons_self c r)
    rw [List.cons_append, pySplit_eq, if_neg (by simp [hc])]
    have hr : ∀ d ∈ r, (!pws d) = true := fun d hd => by
      simp [hall d (List.mem_cons_of_mem c hd)]
    rw [takeWhile_append_of_all r X hr, dropWhile_append_of_all r X hr]
    cases X with
    | nil => simp
    | cons d X' =>
      have hd : pws d = true := hX d rfl
      rw [List.takeWhile_cons_of_neg (by simp [hd]), List.dropWhile_cons_of_neg (by simp [hd])]
      simp

theorem pySplit_joinSp (ts : List (List Char))
    (h : ∀ t ∈ ts, t ≠ [] ∧ ∀ c ∈ t, pws c = false) :
    pySplit (joinSp ts) = ts := by
  induction ts with
  | nil => simp [joinSp, pySplit, pySplitF]
  | cons t ts ih =>
    cases ts with
    | nil =>
      have h1 := h t (List.mem_cons_self t [])
      have := pySplit_token_append t [] h1.1 h1.2 (by intro d hd; simp at hd)
      simpa [joinSp, pySplit] using this
    | cons t2 rest =>
      have h1 := h t (List.mem_cons_self t (t2 :: rest))
      rw [joinSp_cons₂, pySplit_token_append t (' ' :: joinSp (t2 :: rest)) h1.1 h1.2
        (by intro d hd; injection hd with h2; subst h2; decide)]
      congr 1
      rw [pySplit_eq, if_pos (by decide)]
      have h2 := h t2 (List.mem_cons_of_mem t (List.mem_cons_self t2 rest))
      have hhead : ∃ d J', joinSp (t2 :: rest) = d :: J' ∧ pws d = false := by
        cases rest with
        | nil =>
          cases t2 with
          | nil => exact absurd rfl h2.1
          | cons d r => exact ⟨d, r, rfl, h2.2 d (List.mem_cons_self d r)⟩
        | cons u v =>
          cases t2 with
          | nil => exact absurd rfl h2.1
          | cons d r =>
            exact ⟨d, r ++ ' ' :: joinSp (u :: v), by rw [joinSp_cons₂]; rfl,
              h2.2 d (List.mem_cons_self d r)⟩
      rcases hhead with ⟨d, J', hJ, hd⟩
      rw [hJ, List.dropWhile_cons_of_neg (by simp [hd]), ← hJ]
      exact ih (fun u hu => h u (List.mem_cons_of_mem t hu))

/-- Whitespace normalisation bridge: collapsing whitespace runs and
stripping the ends is the same as splitting into words and re-joining
with single spaces (the `' '.join(s.split())` identity). -/
theorem stripCollapse_eq_joinSplit (l : List Char) :
    pyStrip (collapseWs l) = joinSp (pySplit l) := by
  suffices H : ∀ n, ∀ l : List Char, l.length ≤ n →
      pyStrip (collapseWs l) = joinSp (pySplit l) from H l.length l le_rfl
  intro n
  induction n with
  | zero =>
    intro l hl
    have hnil : l = [] := List.length_eq_zero.mp (Nat.le_zero.mp hl)
    subst hnil
    simp [collapseWs, collapseWsF, pySplit, pySplitF, joinSp, pyStrip, dropTrailingWs]
  | succ n ihn =>
    intro l hl
    cases l with
    | nil => simp [collapseWs, collapseWsF, pySplit, pySplitF, joinSp, pyStrip, dropTrailingWs]
    | cons c cs =>
      have hcs : cs.length ≤ n := Nat.le_of_succ_le_succ (by simpa using hl)
      by_cases hc : pws c = true
      · rw [collapseWs_eq, if_pos hc, pySplit_eq, if_pos hc]
        have hstrip : ∀ Y : List Char, pyStrip (' ' :: Y) = pyStrip Y := by
          intro Y
          unfold pyStrip
          rw [List.dropWhile_cons_of_pos (by decide)]
        rw [hstrip]
        exact ihn (cs.dropWhile pws) (le_trans (lengthDropWhileLe pws cs) hcs)
      · rw [pySplit_eq, if_neg hc]
        have htkall : ∀ d ∈ c :: cs.takeWhile (fun e => !pws e), pws d = false := by
          intro d hd
          rcases List.mem_cons.mp hd with h | h
          · subst h; simpa using hc
          · have := List.mem_takeWhile_imp h
            simpa using this
        have hsplit : c :: cs =
            (c :: cs.takeWhile (fun e => !pws e)) ++ cs.dropWhile (fun e => !pws e) := by
          rw [List.cons_append, List.takeWhile_append_dropWhile]
        calc pyStrip (collapseWs (c :: cs))
            = pyStrip ((c :: cs.takeWhile (fun e => !pws e)) ++
                collapseWs (cs.dropWhile (fun e => !pws e))) := by
              rw [hsplit, collapseWs_append_of_nonws _ _ htkall]
          _ = dropTrailingWs ((c :: cs.takeWhile (fun e => !pws e)) ++
                collapseWs (cs.dropWhile (fun e => !pws e))) := by
              unfold pyStrip
              rw [List.cons_append, List.dropWhile_cons_of_neg (by simpa using hc),
                ← List.cons_append]
          _ = joinSp ((c :: cs.takeWhile (fun e => !pws e)) ::
                pySplit (cs.dropWhile (fun e => !pws e))) := by
              rw [dropTrailingWs_append]
              cases hr : cs.dropWhile (fun e => !pws e) with
              | nil =>
                rw [show collapseWs [] = [] from rfl]
                rw [show dropTrailingWs ([] : List Char) = [] from by
                  simp [dropTrailingWs]]
                rw [if_pos rfl, dropTrailingWs_of_none htkall]
                simp [pySplit, pySplitF, joinSp]
              | cons w rest =>
                have hw : pws w = true := by
                  have := head_dropWhile_false hr
                  simpa using this
                rw [show collapseWs (w :: rest) = ' ' :: collapseWs (rest.dropWhile pws) from by
                  rw [collapseWs_eq, if_pos hw]]
                rw [show (' ' :: collapseWs (rest.dropWhile pws)) =
                  [' '] ++ collapseWs (rest.dropWhile pws) from rfl]
                rw [dropTrailingWs_append]
                have hVlen : (rest.dropWhile pws).length ≤ n := by
                  have h1 : (rest.dropWhile pws).length ≤ rest.length :=
                    lengthDropWhileLe pws rest
                  have h2 : rest.length < (cs.dropWhile (fun e => !pws e)).length := by
                    rw [hr]; simp
                  have h3 : (cs.dropWhile (fun e => !pws e)).length ≤ cs.length :=
                    lengthDropWhileLe _ cs
                  omega
                have hV := ihn (rest.dropWhile pws) hVlen
                have hVdrop : (collapseWs (rest.dropWhile pws)).dropWhile pws
                    = collapseWs (rest.dropWhile pws) := by
                  cases hV2 : rest.dropWhile pws with
                  | nil => rfl
                  | cons d V' =>
                    have hd : pws d = false := head_dropWhile_false hV2
                    rw [show collapseWs (d :: V') = d :: collapseWs V' from by
                      rw [collapseWs_eq, if_neg (by simp [hd])]]
                    rw [List.dropWhile_cons_of_neg (by simp [hd])]
                have hVstrip : dropTrailingWs (collapseWs (rest.dropWhile pws))
                    = joinSp (pySplit (rest.dropWhile pws)) := by
                  rw [← hV]
                  unfold pyStrip
                  rw [hVdrop]
                rw [show pySplit (w :: rest) = pySplit (rest.dropWhile pws) from by
                  rw [pySplit_eq, if_pos hw]]
                by_cases hps : pySplit (rest.dropWhile pws) = []
                · rw [hps] at hVstrip ⊢
                  rw [show joinSp ([] : List (List Char)) = [] from rfl] at hVstrip
                  rw [hVstrip, if_pos rfl]
                  rw [show dropTrailingWs [' '] = [] from by decide]
                  rw [if_pos rfl, dropTrailingWs_of_none htkall]
                  simp [joinSp]
                · cases hps2 : pySplit (rest.dropWhile pws) with
                  | nil => exact absurd hps2 hps
                  | cons u us =>
                    have hu : u ≠ [] :=
                      (pySplit_wf (rest.dropWhile pws) u
                        (by rw [hps2]; exact List.mem_cons_self u us)).1
                    have hne : joinSp (u :: us) ≠ [] := joinSp_ne_nil u us hu
                    rw [hps2] at hVstrip
                    rw [hVstrip, if_neg hne]
                    have hne2 : ¬ ([' '] ++ joinSp (u :: us) = []) := by simp
                    rw [if_neg hne2, joinSp_cons₂]
                    rfl

/-- The whitespace stage of `clean_text_v2` (collapse runs, blank-line
substitution, strip) equals split-and-rejoin. -/
theorem wsStage_eq_joinSplit (l : List Char) :
    pyStrip (nlsub (collapseWs l)) = joinSp (pySplit l) := by
  rw [nlsub_collapseWs, stripCollapse_eq_joinSplit]

theorem clean_text_v2_data (t : String) (h : ¬ t = "") :
    (clean_text_v2 t).data = joinSp (pySplit (tokenSubs t.data)) := by
  rw [clean_text_v2, if_neg h, ← wsStage_eq_joinSplit]

/-- C6 (corrected): `clean_text_v2` is idempotent on every text whose
normalised output the token-removal substitutions leave unchanged.  (It
is not idempotent in general — see the counterexample theorem — because
`re.sub`'s single left-to-right pass can create a new removable token
out of the pieces around a removed one.) -/
theorem clean_text_v2_idem_of_fixed :
    ∀ t : String, tokenSubs (clean_text_v2 t).data = (clean_text_v2 t).data →
      clean_text_v2 (clean_text_v2 t) = clean_text_v2 t := by
  intro t h
  by_cases h0 : clean_text_v2 t = ""
  · rw [h0, clean_text_v2]
    rfl
  · have ht : ¬ t = "" := by
      intro he
      apply h0
      rw [he, clean_text_v2]
      rfl
    rw [clean_text_v2, if_neg h0, h]
    have hdata := clean_text_v2_data t ht
    rw [hdata, wsStage_eq_joinSplit,
      pySplit_joinSp (pySplit (tokenSubs t.data)) (pySplit_wf (tokenSubs t.data)), ← hdata]

/-- C6 witness: the amended idempotence theorem applied at a concrete
token-free text. -/
theorem clean_text_v2_idem_of_fixed_witness :
    clean_text_v2 (clean_text_v2 "hello  world") = clean_text_v2 "hello  world" :=
  clean_text_v2_idem_of_fixed "hello  world" (by decide)

/-- C6 counterexample: the normalizer is not idempotent.  On
`"ORCID ORCID : x : y"` one pass removes the inner `ORCID : x` token and
leaves `"ORCID : y"`, which a second pass removes entirely. -/
theorem clean_text_v2_not_idempotent :
    clean_text_v2 (clean_text_v2 "ORCID ORCID : x : y") ≠
      clean_text_v2 "ORCID ORCID : x : y" := by
  decide

theorem chunkLoopF_succ (words : List (List Char)) (size ov fuel start : Nat) :
    chunkLoopF words size ov (fuel + 1) start =
      if start < words.length then
        (if min (start + size) words.length = words.length
         then some [joinSp ((words.drop start).take (min (start + size) words.length - start))]
         else
           match chunkLoopF words size ov fuel (start + (size - ov)) with
           | some cs =>
             some (joinSp ((words.drop start).take (min (start + size) words.length - start)) :: cs)
           | none => none)
      else some [] := rfl

/-- When the step is positive, fuel `len - start + 1` always completes
the window loop, and the completed run from inside the word list is
non-empty. -/
theorem chunkLoopF_isSome (words : List (List Char)) (size ov : Nat) (hso : ov < size) :
    ∀ (fuel start : Nat), words.length - start < fuel →
      ∃ cs, chunkLoopF words size ov fuel start = some cs ∧
        (start < words.length → cs ≠ []) := by
  intro fuel
  induction fuel with
  | zero => intro start h; omega
  | succ fuel ih =>
    intro start h
    by_cases hs : start < words.length
    · rw [chunkLoopF_succ, if_pos hs]
      by_cases hend : min (start + size) words.length = words.length
      · exact ⟨_, by rw [if_pos hend], fun _ => by simp⟩
      · have hlt : start + size < words.length := by
          rcases Nat.lt_or_ge (start + size) words.length with h1 | h1
          · exact h1
          · exact absurd (Nat.min_eq_right h1) (by omega)
        rcases ih (start + (size - ov)) (by omega) with ⟨cs, hcs, _⟩
        refine ⟨joinSp ((words.drop start).take (min (start + size) words.length - start)) :: cs,
          ?_, fun _ => by simp⟩
        rw [if_neg hend, hcs]
    · exact ⟨[], by rw [chunkLoopF_succ, if_neg hs], fun h' => absurd h' hs⟩

/-- Every word position from `start` on is covered by some chunk the
loop emits. -/
theorem chunkLoopF_cover (words : List (List Char))
    (hwf : ∀ t ∈ words, t ≠ [] ∧ ∀ c ∈ t, pws c = false) (size ov : Nat) :
    ∀ (fuel start : Nat) (cs : List (List Char)),
      chunkLoopF words size ov fuel start = some cs →
      ∀ i (h : i < words.length), start ≤ i →
        ∃ l ∈ cs, words.get ⟨i, h⟩ ∈ pySplit l := by
  have hslice : ∀ (start : Nat) (i : Nat) (h : i < words.length), start ≤ i →
      i < min (start + size) words.length →
      words.get ⟨i, h⟩ ∈
        pySplit (joinSp ((words.drop start).take (min (start + size) words.length - start))) := by
    intro start i h hsi hie
    have hsub : ((words.drop start).take (min (start + size) words.length - start)).Sublist words :=
      List.Sublist.trans (List.take_sublist _ _) (List.drop_sublist _ _)
    rw [pySplit_joinSp _ (fun u hu => hwf u (hsub.mem hu))]
    have hj : i - start < min (start + size) words.length - start := by omega
    have hj2 : i - start < (words.drop start).length := by
      rw [List.length_drop]
      omega
    have hidx : start + (i - start) = i := by omega
    have : ((words.drop start).take (min (start + size) words.length - start)).get
        ⟨i - start, by rw [List.length_take]; exact lt_min hj hj2⟩ = words.get ⟨i, h⟩ := by
      rw [List.get_eq_getElem, List.get_eq_getElem, List.getElem_take, List.getElem_drop]
      simp only [hidx]
    rw [← this]
    exact List.get_mem _ _ _
  intro fuel
  induction fuel with
  | zero => intro start cs hcs; simp [chunkLoopF] at hcs
  | succ fuel ih =>
    intro start cs hcs i h hsi
    have hs : start < words.length := lt_of_le_of_lt hsi h
    rw [chunkLoopF_succ, if_pos hs] at hcs
    by_cases hend : min (start + size) words.length = words.length
    · rw [if_pos hend] at hcs
      injection hcs with hcs
      subst hcs
      refine ⟨_, List.mem_singleton_self _, hslice start i h hsi ?_⟩
      omega
    · rw [if_neg hend] at hcs
      cases hrec : chunkLoopF words size ov fuel (start + (size - ov)) with
      | none => rw [hrec] at hcs; simp at hcs
      | some cs' =>
        rw [hrec] at hcs
        injection hcs with hcs
        subst hcs
        by_cases hie : i < min (start + size) words.length
        · exact ⟨_, List.mem_cons_self _ _, hslice start i h hsi hie⟩
        · have hlt : start + size < words.length := by
            rcases Nat.lt_or_ge (start + size) words.length with h1 | h1
            · exact h1
            · exact absurd (Nat.min_eq_right h1) (by omega)
          have hmin : min (start + size) words.length = start + size := Nat.min_eq_left (by omega)
          rcases ih (start + (size - ov)) cs' hrec i h (by omega) with ⟨l, hl, hm⟩
          exact ⟨l, List.mem_cons_of_mem _ hl, hm⟩

/-- C9 (confirmed): the window loop of `chunk_text_v2` terminates for
every input whenever the window is strictly larger than the overlap:
fuel `len + 1` (one step per word plus one) completes it, and
`chunk_text_v2` is the pure function of its inputs built from that
completed run. -/
theorem chunk_text_v2_terminates :
    ∀ (t : String) (size ov : Nat), ov < size →
      ∃ cs, chunkLoopF (pySplit t.data) size ov ((pySplit t.data).length + 1) 0 = some cs ∧
        chunk_text_v2 t size ov =
          (if (pySplit t.data).length ≤ size then [t] else cs.map String.mk) := by
  intro t size ov h
  rcases chunkLoopF_isSome (pySplit t.data) size ov h ((pySplit t.data).length + 1) 0
    (by omega) with ⟨cs, hcs, _⟩
  refine ⟨cs, hcs, ?_⟩
  rw [chunk_text_v2]
  by_cases hle : (pySplit t.data).length ≤ size
  · rw [if_pos hle, if_pos hle]
  · rw [if_neg hle, if_neg hle, hcs]
    rfl

/-- C9 witness at the defaults' shape on a concrete short input. -/
theorem chunk_text_v2_terminates_witness :
    ∃ cs, chunkLoopF (pySplit "a b c".data) 2 1 ((pySplit "a b c".data).length + 1) 0 = some cs ∧
      chunk_text_v2 "a b c" 2 1 =
        (if (pySplit "a b c".data).length ≤ 2 then ["a b c"] else cs.map String.mk) :=
  chunk_text_v2_terminates "a b c" 2 1 (by decide)

/-- C8 (confirmed): with at most 4000 whitespace-separated words the
chunker returns exactly the original text as its one chunk; and in all
cases every word of the input occurs in some chunk. -/
theorem chunk_text_v2_coverage :
    ∀ t : String,
      ((pySplit t.data).length ≤ 4000 → chunk_text_v2 t 4000 1000 = [t]) ∧
      (∀ i (h : i < (pySplit t.data).length),
        ∃ c ∈ chunk_text_v2 t 4000 1000, (pySplit t.data).get ⟨i, h⟩ ∈ pySplit c.data) := by
  intro t
  constructor
  · intro hle
    rw [chunk_text_v2, if_pos hle]
  · intro i h
    by_cases hle : (pySplit t.data).length ≤ 4000
    · rw [chunk_text_v2, if_pos hle]
      exact ⟨t, List.mem_singleton_self t, List.get_mem _ i h⟩
    · rcases chunkLoopF_isSome (pySplit t.data) 4000 1000 (by omega)
        ((pySplit t.data).length + 1) 0 (by omega) with ⟨cs, hcs, _⟩
      rw [chunk_text_v2, if_neg hle, hcs]
      rcases chunkLoopF_cover (pySplit t.data) (pySplit_wf t.data) 4000 1000
        ((pySplit t.data).length + 1) 0 cs hcs i h (Nat.zero_le i) with ⟨l, hl, hm⟩
      exact ⟨String.mk l, List.mem_map_of_mem String.mk hl, hm⟩

/-- C8 witness on a concrete two-word input. -/
theorem chunk_text_v2_coverage_witness :
    chunk_text_v2 "a b" 4000 1000 = ["a b"] ∧
    ∃ h : 0 < (pySplit "a b".data).length,
      ∃ c ∈ chunk_text_v2 "a b" 4000 1000, (pySplit "a b".data).get ⟨0, h⟩ ∈ pySplit c.data :=
  ⟨(chunk_text_v2_coverage "a b").1 (by decide),
   ⟨by decide, (chunk_text_v2_coverage "a b").2 0 (by decide)⟩⟩

theorem chunk_text_v2_ne_nil (s : String) : chunk_text_v2 s 4000 1000 ≠ [] := by
  by_cases hle : (pySplit s.data).length ≤ 4000
  · rw [chunk_text_v2, if_pos hle]
    simp
  · rcases chunkLoopF_isSome (pySplit s.data) 4000 1000 (by omega)
      ((pySplit s.data).length + 1) 0 (by omega) with ⟨cs, hcs, hne⟩
    rw [chunk_text_v2, if_neg hle, hcs]
    have h1 : cs ≠ [] := hne (by omega)
    simpa using h1

theorem tryMethod_cases (p : String) (st : ExtractionStatus) (mname : String) (gate : Nat)
    (r : Option String × List String) (next : ExtractionResult) :
    tryMethod p st mname gate r next = next ∨
      ∃ t, r.1 = some t ∧ gate < t.length ∧
        tryMethod p st mname gate r next = gateBuild p st mname t r.2 := by
  rcases r with ⟨ot, secs⟩
  cases ot with
  | none => exact Or.inl rfl
  | some t =>
    by_cases hg : gate < t.length
    · exact Or.inr ⟨t, rfl, hg, by simp [tryMethod, hg]⟩
    · exact Or.inl (by simp [tryMethod, hg])

theorem extractBody_eq_none (fetch : String → FetchOut) (methods : String → SoupModel)
    (p : String) (h : (fetch p).html = none) :
    extractBody fetch methods p =
      ⟨p, .FAILED, none, none,
        some (match (fetch p).error with | some e => e | none => "Unable to fetch HTML"),
        none, none, 0, 0⟩ := by
  simp only [extractBody, h]

theorem extractBody_eq_some (fetch : String → FetchOut) (methods : String → SoupModel)
    (p : String) (html : String) (h : (fetch p).html = some html) :
    extractBody fetch methods p =
      tryMethod p .SUCCESS "method1_main_body" 1000 (methods html).m1
        (tryMethod p .SUCCESS "method2_heading" 1000 (methods html).m2
          (tryMethod p .PARTIAL "method3_fallback" 500 (methods html).m3
            ⟨p, .FAILED, none, none,
              some "All extraction methods failed, page structure may be non-standard",
              none, none, 0, 0⟩)) := by
  simp only [extractBody, h]

theorem inv_gateBuild (p : String) (st : ExtractionStatus) (m t : String) (secs : List String) :
    ((∃ l, (gateBuild p st m t secs).full_text_chunks = some l ∧ l ≠ []) ↔
      (∃ s, (gateBuild p st m t secs).full_text = some s)) := by
  constructor
  · intro _
    exact ⟨clean_text_v2 t, rfl⟩
  · intro _
    exact ⟨chunk_text_v2 (clean_text_v2 t) 4000 1000, rfl, chunk_text_v2_ne_nil _⟩

/-- C2 (corrected): the chunk sequence is non-empty exactly when
`full_text` is *present* — even when it is present and empty, since
`chunk_text_v2("")` is the one-element list `[""]`. -/
theorem extract_chunks_nonempty_iff_full_text_present :
    ∀ (fetch : String → FetchOut) (methods : String → SoupModel) (pmcid : String),
      ((∃ l, (extract_full_text fetch methods pmcid).full_text_chunks = some l ∧ l ≠ []) ↔
        (∃ s, (extract_full_text fetch methods pmcid).full_text = some s)) := by
  intro fetch methods pmcid
  rw [extract_full_text]
  by_cases h0 : pmcid = ""
  · rw [if_pos h0]
    simp
  · rw [if_neg h0]
    cases hf : (fetch (normPmcid pmcid)).html with
    | none =>
      rw [extractBody_eq_none fetch methods _ hf]
      simp
    | some html =>
      rw [extractBody_eq_some fetch methods _ html hf]
      rcases tryMethod_cases (normPmcid pmcid) .SUCCESS "method1_main_body" 1000
        (methods html).m1 _ with h1 | ⟨t, _, _, h1⟩
      · rw [h1]
        rcases tryMethod_cases (normPmcid pmcid) .SUCCESS "method2_heading" 1000
          (methods html).m2 _ with h2 | ⟨t, _, _, h2⟩
        · rw [h2]
          rcases tryMethod_cases (normPmcid pmcid) .PARTIAL "method3_fallback" 500
            (methods html).m3 _ with h3 | ⟨t, _, _, h3⟩
          · rw [h3]
            simp
          · rw [h3]
            exact inv_gateBuild _ _ _ _ _
        · rw [h2]
          exact inv_gateBuild _ _ _ _ _
      · rw [h1]
        exact inv_gateBuild _ _ _ _ _

/-- A raw candidate whose normalisation is empty: an `ORCID : <token>`
label followed by a long identifier-like token; the whole 1009-character
string is one removable ORCID token. -/
def cexChunkInput : String := String.mk ("ORCID : ".data ++ List.replicate 1001 'x')

set_option maxRecDepth 1000000 in
/-- C2 counterexample to the claim as stated ("chunks non-empty iff
fullText non-empty"): a gated candidate that the normalizer reduces to
the empty string yields `full_text = some ""` with the non-empty chunk
list `[""]`. -/
theorem extract_chunks_nonempty_full_text_empty :
    (extract_full_text (fun _ => ⟨some "H", none, false⟩)
      (fun _ => ⟨(some cexChunkInput, ["S"]), (none, []), (none, [])⟩) "1").full_text = some "" ∧
    (extract_full_text (fun _ => ⟨some "H", none, false⟩)
      (fun _ => ⟨(some cexChunkInput, ["S"]), (none, []), (none, [])⟩) "1").full_text_chunks =
      some [""] ∧
    ¬ ((∃ l, (extract_full_text (fun _ => ⟨some "H", none, false⟩)
          (fun _ => ⟨(some cexChunkInput, ["S"]), (none, []), (none, [])⟩) "1").full_text_chunks =
            some l ∧ l ≠ []) ↔
        (∃ s, (extract_full_text (fun _ => ⟨some "H", none, false⟩)
          (fun _ => ⟨(some cexChunkInput, ["S"]), (none, []), (none, [])⟩) "1").full_text =
            some s ∧ s ≠ "")) := by
  refine ⟨by decide, by decide, ?_⟩
  intro hiff
  rcases hiff.mp ⟨[""], by decide, by simp⟩ with ⟨s, hs, hne⟩
  rw [show (extract_full_text (fun _ => ⟨some "H", none, false⟩)
      (fun _ => ⟨(some cexChunkInput, ["S"]), (none, []), (none, [])⟩) "1").full_text = some ""
    from by decide] at hs
  injection hs with hs
  exact hne hs.symm

/-- C1 (corrected): `SUCCESS` guarantees that the *raw* candidate
returned by strategy 1 or strategy 2 on the fetched markup (the one
named by `method_used`) was longer than 1000 characters, and `PARTIAL`
that the raw strategy-3 candidate was longer than 500 characters; in
both cases `full_text` stores that candidate's *normalised* form, whose
length may be smaller than the gate. -/
theorem extract_success_gates_raw_candidate :
    ∀ (fetch : String → FetchOut) (methods : String → SoupModel) (pmcid : String),
      ((extract_full_text fetch methods pmcid).status = ExtractionStatus.SUCCESS →
        ∃ html t, (fetch (normPmcid pmcid)).html = some html ∧
          (((methods html).m1.1 = some t ∧
              (extract_full_text fetch methods pmcid).method_used = some "method1_main_body") ∨
            ((methods html).m2.1 = some t ∧
              (extract_full_text fetch methods pmcid).method_used = some "method2_heading")) ∧
          1000 < t.length ∧
          (extract_full_text fetch methods pmcid).full_text = some (clean_text_v2 t)) ∧
      ((extract_full_text fetch methods pmcid).status = ExtractionStatus.PARTIAL →
        ∃ html t, (fetch (normPmcid pmcid)).html = some html ∧
          (methods html).m3.1 = some t ∧
          (extract_full_text fetch methods pmcid).method_used = some "method3_fallback" ∧
          500 < t.length ∧
          (extract_full_text fetch methods pmcid).full_text = some (clean_text_v2 t)) := by
  intro fetch methods pmcid
  rw [extract_full_text]
  by_cases h0 : pmcid = ""
  · rw [if_pos h0]
    constructor <;> intro hst <;> simp at hst
  · rw [if_neg h0]
    cases hf : (fetch (normPmcid pmcid)).html with
    | none =>
      rw [extractBody_eq_none fetch methods _ hf]
      constructor <;> intro hst <;> simp at hst
    | some html =>
      rw [extractBody_eq_some fetch methods _ html hf]
      rcases tryMethod_cases (normPmcid pmcid) .SUCCESS "method1_main_body" 1000
        (methods html).m1 _ with h1 | ⟨t, ht, hg, h1⟩
      · rw [h1]
        rcases tryMethod_cases (normPmcid pmcid) .SUCCESS "method2_heading" 1000
          (methods html).m2 _ with h2 | ⟨t, ht, hg, h2⟩
        · rw [h2]
          rcases tryMethod_cases (normPmcid pmcid) .PARTIAL "method3_fallback" 500
            (methods html).m3 _ with h3 | ⟨t, ht, hg, h3⟩
          · rw [h3]
            constructor <;> intro hst <;> simp at hst
          · rw [h3]
            constructor
            · intro hst
              simp [gateBuild] at hst
            · intro _
              exact ⟨html, t, rfl, ht, rfl, hg, rfl⟩
        · rw [h2]
          constructor
          · intro _
            exact ⟨html, t, rfl, Or.inr ⟨ht, rfl⟩, hg, rfl⟩
          · intro hst
            simp [gateBuild] at hst
      · rw [h1]
        constructor
        · intro _
          exact ⟨html, t, rfl, Or.inl ⟨ht, rfl⟩, hg, rfl⟩
        · intro hst
          simp [gateBuild] at hst

/-- A raw strategy-3 candidate of 502 characters whose normalisation is
empty. -/
def cexGateInput : String := String.mk ("ORCID : ".data ++ List.replicate 494 'x')

set_option maxRecDepth 1000000 in
/-- C1 counterexample to the claim as stated: a `PartialSuccess`
outcome whose stored `fullText` has length 0 ≤ 500 — the 500-character
gate applies to the raw candidate, not to the stored normalised text. -/
theorem extract_partial_full_text_below_gate :
    (extract_full_text (fun _ => ⟨some "H", none, false⟩)
      (fun _ => ⟨(none, []), (none, []), (some cexGateInput, ["[Fallback mode]"])⟩) "1").status =
      ExtractionStatus.PARTIAL ∧
    ∃ s, (extract_full_text (fun _ => ⟨some "H", none, false⟩)
      (fun _ => ⟨(none, []), (none, []), (some cexGateInput, ["[Fallback mode]"])⟩) "1").full_text =
        some s ∧ s.length ≤ 500 := by
  exact ⟨by decide, "", by decide, by decide⟩

set_option maxRecDepth 1000000 in
/-- C1 witness: the amended theorem applied at a concrete `SUCCESS`
outcome, where the gated raw candidate is strategy 1's. -/
theorem extract_success_gates_raw_candidate_witness :
    ∃ html t, some "H" = some html ∧
      ((some cexChunkInput = some t ∧
          (extract_full_text (fun _ => ⟨some "H", none, false⟩)
            (fun _ => ⟨(some cexChunkInput, ["S"]), (none, []), (none, [])⟩) "1").method_used =
            some "method1_main_body") ∨
        ((none : Option String) = some t ∧
          (extract_full_text (fun _ => ⟨some "H", none, false⟩)
            (fun _ => ⟨(some cexChunkInput, ["S"]), (none, []), (none, [])⟩) "1").method_used =
            some "method2_heading")) ∧
      1000 < t.length ∧
      (extract_full_text (fun _ => ⟨some "H", none, false⟩)
        (fun _ => ⟨(some cexChunkInput, ["S"]), (none, []), (none, [])⟩) "1").full_text =
        some (clean_text_v2 t) :=
  (extract_success_gates_raw_candidate (fun _ => ⟨some "H", none, false⟩)
    (fun _ => ⟨(some cexChunkInput, ["S"]), (none, []), (none, [])⟩) "1").1 (by decide)

/-- C7 (confirmed): an HTTP 404 on the primary transport makes
`fetch_html` return no markup with the `Article not found` message
without entering the Selenium block (whatever the Selenium
configuration), and `extract_full_text` then reports `FAILED` with an
error message containing "not found", with no extraction strategy
consulted (the outcome is independent of the strategy results). -/
theorem fetch_404_short_circuits :
    ∀ (useSel : Bool) (sel : SeleniumResult) (methods : String → SoupModel) (pmcid : String),
      pmcid ≠ "" →
      (∀ q, (fetch_html useSel (.httpError 404) sel q).html = none ∧
        (fetch_html useSel (.httpError 404) sel q).error =
          some ("Article not found (404): " ++ q) ∧
        (fetch_html useSel (.httpError 404) sel q).seleniumAttempted = false) ∧
      (extract_full_text (fun q => fetch_html useSel (.httpError 404) sel q) methods pmcid).status =
        ExtractionStatus.FAILED ∧
      (∃ msg,
        (extract_full_text (fun q => fetch_html useSel (.httpError 404) sel q) methods
            pmcid).error_message = some msg ∧
        "not found".data <:+: msg.data) ∧
      (∀ methods',
        extract_full_text (fun q => fetch_html useSel (.httpError 404) sel q) methods' pmcid =
          extract_full_text (fun q => fetch_html useSel (.httpError 404) sel q) methods pmcid) := by
  intro useSel sel methods pmcid h0
  have hf : ∀ q : String, fetch_html useSel (.httpError 404) sel q =
      ⟨none, some ("Article not found (404): " ++ q), false⟩ := fun q => rfl
  have hb : ∀ m : String → SoupModel,
      extract_full_text (fun q => fetch_html useSel (.httpError 404) sel q) m pmcid =
        ⟨normPmcid pmcid, .FAILED, none, none,
          some ("Article not found (404): " ++ normPmcid pmcid), none, none, 0, 0⟩ := by
    intro m
    rw [extract_full_text, if_neg h0,
      extractBody_eq_none _ m (normPmcid pmcid) (by rw [hf]),
      show (fetch_html useSel (.httpError 404) sel (normPmcid pmcid)).error =
        some ("Article not found (404): " ++ normPmcid pmcid) from by rw [hf]]
  refine ⟨fun q => by rw [hf q]; exact ⟨rfl, rfl, rfl⟩, ?_, ?_, ?_⟩
  · rw [hb methods]
  · refine ⟨"Article not found (404): " ++ normPmcid pmcid, by rw [hb methods], ?_⟩
    refine ⟨"Article ".data, " (404): ".data ++ (normPmcid pmcid).data, ?_⟩
    rw [String.data_append]
    rw [show ("Article not found (404): " : String).data =
      "Article ".data ++ "not found".data ++ " (404): ".data from by decide]
    simp [List.append_assoc]
  · intro methods'
    rw [hb methods, hb methods']

/-- C7 witness: the theorem instantiated at a concrete configuration
and id. -/
theorem fetch_404_short_circuits_witness :
    (extract_full_text (fun q => fetch_html true (.httpError 404) (.failure "boom") q)
      (fun _ => ⟨(none, []), (none, []), (none, [])⟩) "123").status = ExtractionStatus.FAILED ∧
    (∃ msg,
      (extract_full_text (fun q => fetch_html true (.httpError 404) (.failure "boom") q)
        (fun _ => ⟨(none, []), (none, []), (none, [])⟩) "123").error_message = some msg ∧
      "not found".data <:+: msg.data) ∧
    (fetch_html true (.httpError 404) (.failure "boom") "PMC123").html = none ∧
    (fetch_html true (.httpError 404) (.failure "boom") "PMC123").seleniumAttempted = false :=
  ⟨(fetch_404_short_circuits true (.failure "boom")
      (fun _ => ⟨(none, []), (none, []), (none, [])⟩) "123" (by decide)).2.1,
   (fetch_404_short_circuits true (.failure "boom")
      (fun _ => ⟨(none, []), (none, []), (none, [])⟩) "123" (by decide)).2.2.1,
   ((fetch_404_short_circuits true (.failure "boom")
      (fun _ => ⟨(none, []), (none, []), (none, [])⟩) "123" (by decide)).1 "PMC123").1,
   ((fetch_404_short_circuits true (.failure "boom")
      (fun _ => ⟨(none, []), (none, []), (none, [])⟩) "123" (by decide)).1 "PMC123").2.2⟩

theorem extractBody_status_ne_no_pmcid (fetch : String → FetchOut)
    (methods : String → SoupModel) (p : String) :
    (extractBody fetch methods p).status ≠ ExtractionStatus.NO_PMCID := by
  cases hf : (fetch p).html with
  | none =>
    rw [extractBody_eq_none fetch methods p hf]
    simp
  | some html =>
    rw [extractBody_eq_some fetch methods p html hf]
    rcases tryMethod_cases p .SUCCESS "method1_main_body" 1000
      (methods html).m1 _ with h1 | ⟨t, _, _, h1⟩
    · rw [h1]
      rcases tryMethod_cases p .SUCCESS "method2_heading" 1000
        (methods html).m2 _ with h2 | ⟨t, _, _, h2⟩
      · rw [h2]
        rcases tryMethod_cases p .PARTIAL "method3_fallback" 500
          (methods html).m3 _ with h3 | ⟨t, _, _, h3⟩
        · rw [h3]
          simp
        · rw [h3]
          simp [gateBuild]
      · rw [h2]
        simp [gateBuild]
    · rw [h1]
      simp [gateBuild]

/-- C10 (confirmed): `extract_full_text` reports `NO_PMCID` exactly for
the empty identifier string; a whitespace-only identifier is not
reported as `NO_PMCID` — it is stripped to the empty string, prefixed to
the bare literal `PMC`, and processed exactly as the identifier `"PMC"`
would be (so a fetch for `"PMC"` is attempted). -/
theorem extract_no_pmcid_iff_empty :
    (∀ (fetch : String → FetchOut) (methods : String → SoupModel) (pmcid : String),
      (extract_full_text fetch methods pmcid).status = ExtractionStatus.NO_PMCID ↔ pmcid = "") ∧
    (∀ (fetch : String → FetchOut) (methods : String → SoupModel) (pmcid : String),
      pmcid ≠ "" → (∀ c ∈ pmcid.data, pws c = true) →
        extract_full_text fetch methods pmcid = extract_full_text fetch methods "PMC") := by
  constructor
  · intro fetch methods pmcid
    constructor
    · intro hst
      by_contra h0
      rw [extract_full_text, if_neg h0] at hst
      exact extractBody_status_ne_no_pmcid fetch methods _ hst
    · intro h
      subst h
      rfl
  · intro fetch methods pmcid h0 hws
    have hstrip : pyStripS pmcid = "" := by
      unfold pyStripS pyStrip dropTrailingWs
      rw [List.dropWhile_eq_nil_iff.mpr hws]
      rfl
    rw [extract_full_text, if_neg h0, extract_full_text,
      if_neg (by decide : ¬("PMC" : String) = "")]
    congr 1
    rw [normPmcid, normPmcid, hstrip]
    decide

/-- C10 witness: a whitespace-only id behaves exactly like `"PMC"` and
is not `NO_PMCID`; the empty id is `NO_PMCID`. -/
theorem extract_no_pmcid_iff_empty_witness :
    (extract_full_text (fun _ => ⟨none, none, false⟩)
        (fun _ => ⟨(none, []), (none, []), (none, [])⟩) " " =
      extract_full_text (fun _ => ⟨none, none, false⟩)
        (fun _ => ⟨(none, []), (none, []), (none, [])⟩) "PMC") ∧
    ((extract_full_text (fun _ => ⟨none, none, false⟩)
        (fun _ => ⟨(none, []), (none, []), (none, [])⟩) " ").status =
      ExtractionStatus.NO_PMCID ↔ (" " : String) = "") :=
  ⟨extract_no_pmcid_iff_empty.2 (fun _ => ⟨none, none, false⟩)
      (fun _ => ⟨(none, []), (none, []), (none, [])⟩) " " (by decide) (by decide),
    extract_no_pmcid_iff_empty.1 (fun _ => ⟨none, none, false⟩)
      (fun _ => ⟨(none, []), (none, []), (none, [])⟩) " "⟩
